import Mathlib

/-!
Verification of `tensorpack/callbacks/inference_runner.py`.

The module is embedded shallowly: the dispatcher and the classification
logic become pure Lean functions on lists of strings; the runners' trigger
loops become functions producing explicit event traces; Python's dynamic
argument checking is modelled by a small inductive type of runtime values.
-/

/-- Modelled from the spec: `get_op_tensor_name` (defined in
`tensorpack/tfutils/common.py`, which is not part of the sources here)
maps a name to the pair (operation form, canonical tensor form).  Per the
spec's glossary a name has two forms, the value-producing "tensor form"
(ending in a `:k` output suffix) and the side-effect "operation form"
(without it); normalization appends `:0` to an operation-form name and
keeps a tensor-form name unchanged. -/
def get_op_tensor_name (n : String) : String × String :=
  if 3 ≤ n.data.length ∧ n.data.getD (n.data.length - 2) ' ' = ':' then
    (String.mk (n.data.take (n.data.length - 2)), n)
  else
    (n, n ++ ":0")

/-- The canonical tensor form of a name (second component of
`get_op_tensor_name`), used by the dispatcher for dedup comparison. -/
def canonName (n : String) : String := (get_op_tensor_name n).2

/-- State of `OutputTensorDispatcher`: the deduplicated canonical names
seen so far (`_names` in the source) and, per `add_entry` call, the list
of indices into `names` for that entry (`_idxs`). -/
structure OutputTensorDispatcher where
  names : List String
  idxs : List (List Nat)
  deriving Repr, DecidableEq

def OutputTensorDispatcher.empty : OutputTensorDispatcher := ⟨[], []⟩

/-- The loop body of `add_entry`: walk the entry left to right; for each
name take its canonical tensor form `t`; if `t` is already registered
record `names.index(t)`, otherwise append `t` and record the new index.
Returns the grown name list and the index list `v` for this entry. -/
def addEntryAux : List String → List String → List String × List Nat
  | ns, [] => (ns, [])
  | ns, n :: rest =>
    let t := canonName n
    if t ∈ ns then
      let r := addEntryAux ns rest
      (r.1, ns.indexOf t :: r.2)
    else
      let r := addEntryAux (ns ++ [t]) rest
      (r.1, ns.length :: r.2)

/-- Embeds `OutputTensorDispatcher.add_entry`. -/
def OutputTensorDispatcher.add_entry (d : OutputTensorDispatcher)
    (entry : List String) : OutputTensorDispatcher :=
  let r := addEntryAux d.names entry
  ⟨r.1, d.idxs ++ [r.2]⟩

/-- Embeds `get_all_names`. -/
def OutputTensorDispatcher.get_all_names (d : OutputTensorDispatcher) : List String :=
  d.names

/-- Embeds `get_idx_for_each_entry`. -/
def OutputTensorDispatcher.get_idx_for_each_entry (d : OutputTensorDispatcher) :
    List (List Nat) :=
  d.idxs

/-- Embeds `get_names_for_each_entry`: each entry's indices resolved back
through `_names`. -/
def OutputTensorDispatcher.get_names_for_each_entry (d : OutputTensorDispatcher) :
    List (List String) :=
  d.idxs.map (fun t => t.map (fun k => d.names.getD k ""))

/-- A fresh dispatcher fed one `add_entry` call per element of `entries`,
as both runners do in `_find_output_tensors`. -/
def runDispatcher (entries : List (List String)) : OutputTensorDispatcher :=
  entries.foldl OutputTensorDispatcher.add_entry OutputTensorDispatcher.empty

/-- Helper for `specFirstSeen`: keep a name iff it has not been seen
before (either in the accumulated `seen` list or earlier in the walk). -/
def specFirstSeenGo (seen : List String) : List String → List String
  | [] => []
  | x :: xs =>
    if x ∈ seen then specFirstSeenGo seen xs
    else x :: specFirstSeenGo (seen ++ [x]) xs

/-- Reference function, following the spec's words: keep the first
occurrence of each name, in order of first occurrence. -/
def specFirstSeen (l : List String) : List String := specFirstSeenGo [] l

lemma addEntryAux_fst (entry : List String) : ∀ ns : List String,
    (addEntryAux ns entry).1 = ns ++ specFirstSeenGo ns (entry.map canonName) := by
  induction entry with
  | nil => intro ns; simp [addEntryAux, specFirstSeenGo]
  | cons n rest ih =>
    intro ns
    simp only [addEntryAux, List.map_cons, specFirstSeenGo]
    by_cases h : canonName n ∈ ns
    · simp [h, ih ns]
    · simp [h, ih (ns ++ [canonName n])]

lemma specFirstSeenGo_append (l1 l2 : List String) : ∀ seen : List String,
    specFirstSeenGo seen (l1 ++ l2) =
      specFirstSeenGo seen l1 ++
        specFirstSeenGo (seen ++ specFirstSeenGo seen l1) l2 := by
  induction l1 with
  | nil => intro seen; simp [specFirstSeenGo]
  | cons x xs ih =>
    intro seen
    simp only [List.cons_append, specFirstSeenGo]
    by_cases h : x ∈ seen
    · simp [h, ih seen]
    · rw [if_neg h]
      have hx : xs.append l2 = xs ++ l2 := rfl
      rw [hx, ih (seen ++ [x])]
      rw [if_neg h]
      simp [List.append_assoc]

lemma mem_specFirstSeenGo (l : List String) : ∀ (seen : List String) (x : String),
    x ∈ specFirstSeenGo seen l ↔ x ∈ l ∧ x ∉ seen := by
  induction l with
  | nil => intro seen x; simp [specFirstSeenGo]
  | cons y ys ih =>
    intro seen x
    simp only [specFirstSeenGo]
    by_cases h : y ∈ seen
    · rw [if_pos h, ih]
      constructor
      · rintro ⟨hx, hs⟩; exact ⟨List.mem_cons_of_mem _ hx, hs⟩
      · rintro ⟨hx, hs⟩
        rcases List.mem_cons.mp hx with rfl | hx
        · exact absurd h hs
        · exact ⟨hx, hs⟩
    · rw [if_neg h]
      simp only [List.mem_cons, ih]
      constructor
      · rintro (rfl | ⟨hx, hs⟩)
        · exact ⟨Or.inl rfl, h⟩
        · refine ⟨Or.inr hx, fun hc => hs (List.mem_append_left _ hc)⟩
      · rintro ⟨rfl | hx, hs⟩
        · exact Or.inl rfl
        · by_cases hxy : x = y
          · exact Or.inl hxy
          · refine Or.inr ⟨hx, fun hc => ?_⟩
            rcases List.mem_append.mp hc with hc | hc
            · exact hs hc
            · exact hxy (List.mem_singleton.mp hc)

lemma nodup_specFirstSeenGo (l : List String) : ∀ seen : List String,
    (specFirstSeenGo seen l).Nodup := by
  induction l with
  | nil => intro seen; simp [specFirstSeenGo]
  | cons y ys ih =>
    intro seen
    simp only [specFirstSeenGo]
    by_cases h : y ∈ seen
    · simpa [h] using ih seen
    · rw [if_neg h]
      refine List.nodup_cons.mpr ⟨fun hc => ?_, ih _⟩
      exact ((mem_specFirstSeenGo _ _ _).mp hc).2 (List.mem_append_right _ (List.mem_singleton.mpr rfl))

lemma foldl_add_entry_names (entries : List (List String)) :
    ∀ d : OutputTensorDispatcher,
      (entries.foldl OutputTensorDispatcher.add_entry d).names =
        d.names ++ specFirstSeenGo d.names ((entries.map (fun e => e.map canonName)).flatten) := by
  induction entries with
  | nil => intro d; simp [specFirstSeenGo]
  | cons e rest ih =>
    intro d
    simp only [List.foldl_cons, List.map_cons, List.flatten, ih,
      OutputTensorDispatcher.add_entry, addEntryAux_fst, specFirstSeenGo_append,
      List.append_assoc]

/-- The dispatcher's name list is exactly the first-seen dedup of the
canonicalized concatenation of all entries. -/
lemma runDispatcher_names (entries : List (List String)) :
    (runDispatcher entries).names =
      specFirstSeen ((entries.map (fun e => e.map canonName)).flatten) := by
  simpa [runDispatcher, OutputTensorDispatcher.empty, specFirstSeen] using
    foldl_add_entry_names entries OutputTensorDispatcher.empty

lemma nodup_runDispatcher_names (entries : List (List String)) :
    (runDispatcher entries).names.Nodup := by
  rw [runDispatcher_names]
  exact nodup_specFirstSeenGo _ _

lemma mem_runDispatcher_names (entries : List (List String)) (x : String) :
    x ∈ (runDispatcher entries).names ↔
      x ∈ (entries.map (fun e => e.map canonName)).flatten := by
  rw [runDispatcher_names, specFirstSeen, mem_specFirstSeenGo]
  simp

/-- Claim C2: for every sequence of `add_entry` calls on an
`OutputTensorDispatcher`, `get_all_names()` afterwards contains each
distinct (canonical-form) name exactly once, ordered by first occurrence
across all entries; identical `add_entry` sequences produce identical name
lists (the construction is a pure function of the entry sequence). -/
theorem dispatcher_names_first_seen (entries : List (List String)) :
    (runDispatcher entries).get_all_names =
      specFirstSeen ((entries.map (fun e => e.map canonName)).flatten) ∧
    (runDispatcher entries).get_all_names.Nodup ∧
    ∀ x : String,
      (runDispatcher entries).get_all_names.count x =
        if x ∈ (entries.map (fun e => e.map canonName)).flatten then 1 else 0 := by
  refine ⟨runDispatcher_names entries, nodup_runDispatcher_names entries, fun x => ?_⟩
  by_cases hx : x ∈ (entries.map (fun e => e.map canonName)).flatten
  · rw [if_pos hx]
    exact List.count_eq_one_of_mem (nodup_runDispatcher_names entries)
      ((mem_runDispatcher_names entries x).mpr hx)
  · rw [if_neg hx]
    exact List.count_eq_zero_of_not_mem
      (fun hc => hx ((mem_runDispatcher_names entries x).mp hc))

lemma le_length_addEntryAux_fst (entry ns : List String) :
    ns.length ≤ (addEntryAux ns entry).1.length := by
  rw [addEntryAux_fst]; simp

lemma nodup_addEntryAux_fst (entry ns : List String) (h : ns.Nodup) :
    (addEntryAux ns entry).1.Nodup := by
  rw [addEntryAux_fst]
  refine List.Nodup.append h (nodup_specFirstSeenGo _ _) ?_
  intro a ha hb
  exact ((mem_specFirstSeenGo _ _ _).mp hb).2 ha

lemma getD_addEntryAux_fst (entry ns : List String) (k : Nat) (hk : k < ns.length) :
    (addEntryAux ns entry).1.getD k "" = ns.getD k "" := by
  rw [addEntryAux_fst]
  exact List.getD_append _ _ _ _ hk

lemma addEntryAux_resolve (entry : List String) : ∀ ns : List String, ns.Nodup →
    (∀ k ∈ (addEntryAux ns entry).2, k < (addEntryAux ns entry).1.length) ∧
    (addEntryAux ns entry).2.map (fun k => (addEntryAux ns entry).1.getD k "") =
      entry.map canonName := by
  induction entry with
  | nil => intro ns _; simp [addEntryAux]
  | cons n rest ih =>
    intro ns hns
    by_cases h : canonName n ∈ ns
    · have hidx : ns.indexOf (canonName n) < ns.length := List.indexOf_lt_length.mpr h
      have hrec := ih ns hns
      have hpair : addEntryAux ns (n :: rest) =
          ((addEntryAux ns rest).1, ns.indexOf (canonName n) :: (addEntryAux ns rest).2) := by
        simp [addEntryAux, h]
      rw [hpair]
      constructor
      · intro k hk
        rcases List.mem_cons.mp hk with rfl | hk
        · exact lt_of_lt_of_le hidx (le_length_addEntryAux_fst rest ns)
        · exact hrec.1 k hk
      · simp only [List.map_cons, hrec.2]
        congr 1
        rw [getD_addEntryAux_fst rest ns _ hidx, List.getD_eq_getElem _ _ hidx,
          List.getElem_indexOf hidx]
    · have hns' : (ns ++ [canonName n]).Nodup := by
        refine List.Nodup.append hns (List.nodup_singleton _) ?_
        intro a ha hb
        rw [List.mem_singleton] at hb
        exact h (hb ▸ ha)
      have hrec := ih (ns ++ [canonName n]) hns'
      have hlen : ns.length < (ns ++ [canonName n]).length := by simp
      have hpair : addEntryAux ns (n :: rest) =
          ((addEntryAux (ns ++ [canonName n]) rest).1,
            ns.length :: (addEntryAux (ns ++ [canonName n]) rest).2) := by
        simp [addEntryAux, h]
      rw [hpair]
      constructor
      · intro k hk
        rcases List.mem_cons.mp hk with rfl | hk
        · exact lt_of_lt_of_le hlen (le_length_addEntryAux_fst rest _)
        · exact hrec.1 k hk
      · simp only [List.map_cons, hrec.2]
        congr 1
        rw [getD_addEntryAux_fst rest _ _ hlen, List.getD_eq_getElem _ _ hlen]
        exact List.getElem_concat_length ns (canonName n) ns.length rfl (by simp)

/-- Invariant tying a dispatcher state to the sequence of `add_entry`
arguments that produced it: names are duplicate-free, there is one index
list per entry, each recorded index is in bounds, and each entry's index
list resolves through `names` back to the canonicalized entry. -/
def DispatcherInv (d : OutputTensorDispatcher) (entries : List (List String)) : Prop :=
  d.names.Nodup ∧ d.idxs.length = entries.length ∧
  ∀ i, i < entries.length →
    (∀ k ∈ d.idxs.getD i [], k < d.names.length) ∧
    (d.idxs.getD i []).map (fun k => d.names.getD k "") =
      (entries.getD i []).map canonName

lemma add_entry_inv {d : OutputTensorDispatcher} {es : List (List String)}
    (hd : DispatcherInv d es) (e : List String) :
    DispatcherInv (d.add_entry e) (es ++ [e]) := by
  obtain ⟨hnd, hlen, hres⟩ := hd
  have hpair : d.add_entry e =
      ⟨(addEntryAux d.names e).1, d.idxs ++ [(addEntryAux d.names e).2]⟩ := rfl
  rw [hpair]
  refine ⟨nodup_addEntryAux_fst e d.names hnd, by simp [hlen], ?_⟩
  intro i hi
  simp only [List.length_append, List.length_singleton] at hi
  by_cases hlt : i < es.length
  · have hidx : (d.idxs ++ [(addEntryAux d.names e).2]).getD i [] = d.idxs.getD i [] :=
      List.getD_append _ _ _ _ (by omega)
    have hent : (es ++ [e]).getD i [] = es.getD i [] :=
      List.getD_append _ _ _ _ hlt
    obtain ⟨hbound, hmap⟩ := hres i hlt
    rw [hidx, hent]
    constructor
    · intro k hk
      exact lt_of_lt_of_le (hbound k hk) (le_length_addEntryAux_fst e d.names)
    · rw [← hmap]
      refine List.map_congr_left ?_
      intro k hk
      exact getD_addEntryAux_fst e d.names k (hbound k hk)
  · have hieq : i = es.length := by omega
    subst hieq
    have hidx : (d.idxs ++ [(addEntryAux d.names e).2]).getD es.length [] =
        (addEntryAux d.names e).2 := by
      rw [List.getD_eq_getElem _ _ (by simp [hlen])]
      exact List.getElem_concat_length _ _ _ (by omega) (by simp [hlen])
    have hent : (es ++ [e]).getD es.length [] = e := by
      rw [List.getD_eq_getElem _ _ (by simp)]
      exact List.getElem_concat_length _ _ _ rfl (by simp)
    rw [hidx, hent]
    exact ⟨(addEntryAux_resolve e d.names hnd).1, (addEntryAux_resolve e d.names hnd).2⟩

lemma foldl_add_entry_inv (more : List (List String)) :
    ∀ (d : OutputTensorDispatcher) (es : List (List String)),
      DispatcherInv d es →
      DispatcherInv (more.foldl OutputTensorDispatcher.add_entry d) (es ++ more) := by
  induction more with
  | nil => intro d es h; simpa using h
  | cons e rest ih =>
    intro d es h
    have := ih (d.add_entry e) (es ++ [e]) (add_entry_inv h e)
    simpa [List.append_assoc] using this

lemma runDispatcher_inv (entries : List (List String)) :
    DispatcherInv (runDispatcher entries) entries := by
  have := foldl_add_entry_inv entries OutputTensorDispatcher.empty []
    ⟨List.nodup_nil, rfl, by intro i hi; simp at hi⟩
  simpa [runDispatcher] using this

/-- Claim C3, counterexample: mapping an entry's indices through
`get_all_names()` does not always yield back the exact `add_entry`
argument.  For the single entry `["x"]` the dispatcher stores the
canonical tensor form `"x:0"`, so the resolved entry is `["x:0"]`, not
the argument `["x"]`. -/
theorem dispatcher_entry_roundtrip_not_exact :
    ((runDispatcher [["x"]]).get_idx_for_each_entry.getD 0 []).map
        (fun k => (runDispatcher [["x"]]).get_all_names.getD k "") ≠ ["x"] := by
  decide

/-- Claim C3, amended: for every sequence of `add_entry` calls and every
entry index `i`, `get_idx_for_each_entry()[i]` has the same length as the
i-th `add_entry` argument, every index in it is a valid position in
`get_all_names()`, and mapping each index through `get_all_names()`
yields the canonical tensor form of that exact i-th argument (each name
normalized by `get_op_tensor_name`), including repeated names in their
original positions. -/
theorem dispatcher_entry_roundtrip_canonical (entries : List (List String))
    (i : Nat) (hi : i < entries.length) :
    ((runDispatcher entries).get_idx_for_each_entry.getD i []).length =
      (entries.getD i []).length ∧
    (∀ k ∈ (runDispatcher entries).get_idx_for_each_entry.getD i [],
      k < (runDispatcher entries).get_all_names.length) ∧
    ((runDispatcher entries).get_idx_for_each_entry.getD i []).map
        (fun k => (runDispatcher entries).get_all_names.getD k "") =
      (entries.getD i []).map canonName := by
  obtain ⟨-, -, hres⟩ := runDispatcher_inv entries
  obtain ⟨hbound, hmap⟩ := hres i hi
  refine ⟨?_, hbound, hmap⟩
  have := congrArg List.length hmap
  simpa using this

/-- Witness for `dispatcher_entry_roundtrip_canonical` at the concrete
entry sequence `[["x"], ["x:0", "y"]]` and entry index 1. -/
theorem dispatcher_entry_roundtrip_canonical_witness :
    1 < [["x"], ["x:0", "y"]].length ∧
    (((runDispatcher [["x"], ["x:0", "y"]]).get_idx_for_each_entry.getD 1 []).length =
        ([["x"], ["x:0", "y"]].getD 1 []).length ∧
      (∀ k ∈ (runDispatcher [["x"], ["x:0", "y"]]).get_idx_for_each_entry.getD 1 [],
        k < (runDispatcher [["x"], ["x:0", "y"]]).get_all_names.length) ∧
      ((runDispatcher [["x"], ["x:0", "y"]]).get_idx_for_each_entry.getD 1 []).map
          (fun k => (runDispatcher [["x"], ["x:0", "y"]]).get_all_names.getD k "") =
        ([["x"], ["x:0", "y"]].getD 1 []).map canonName) :=
  ⟨by decide, dispatcher_entry_roundtrip_canonical [["x"], ["x:0", "y"]] 1 (by decide)⟩

/-- Embeds `InferenceRunner._IOTensor`: a tagged reference into either the
output-evaluation-result vector (`isOutput = true`) or the input feed
vector (`isOutput = false`). -/
structure IOTensor where
  index : Nat
  isOutput : Bool
  deriving Repr, DecidableEq

/-- The body of `find_tensors` in `InferenceRunner._find_output_tensors`,
applied to a single name: an input name is referenced by its position in
`input_names`, any other name by its position in `output_names`. -/
def classifyName (input_names output_names : List String) (name : String) : IOTensor :=
  if name ∈ input_names then ⟨input_names.indexOf name, false⟩
  else ⟨output_names.indexOf name, true⟩

/-- Embeds `find_tensors` of `InferenceRunner._find_output_tensors`. -/
def find_tensors (input_names output_names names : List String) : List IOTensor :=
  names.map (classifyName input_names output_names)

/-- The outputs of `InferenceRunner._find_output_tensors`:
`self.output_names` and `self.inf_to_tensors`. -/
structure FindOutputResult where
  output_names : List String
  inf_to_tensors : List (List IOTensor)
  deriving Repr, DecidableEq

/-- Embeds `InferenceRunner._find_output_tensors`: feed every inferencer's
requested list to a fresh dispatcher, filter input names out of
`all_names` to obtain `output_names`, then classify each entry's
resolved names. -/
def find_output_tensors (entries : List (List String)) (input_names : List String) :
    FindOutputResult :=
  let d := runDispatcher entries
  let all_names := d.get_all_names
  let output_names := all_names.filter (fun x => x ∉ input_names)
  ⟨output_names, d.get_names_for_each_entry.map (find_tensors input_names output_names)⟩

lemma nodup_map_indexOf {α : Type} [DecidableEq α] (l : List α) (h : l.Nodup) :
    l.map (fun x => l.indexOf x) = List.range l.length := by
  induction l with
  | nil => simp
  | cons x xs ih =>
    rw [List.nodup_cons] at h
    rw [List.length_cons, List.range_succ_eq_map, List.map_cons, List.indexOf_cons_self]
    congr 1
    have hstep : ∀ y ∈ xs, (x :: xs).indexOf y = Nat.succ (xs.indexOf y) := by
      intro y hy
      have hxy : x ≠ y := fun hc => h.1 (hc ▸ hy)
      exact List.indexOf_cons_ne xs hxy
    rw [List.map_congr_left hstep, ← ih h.2, List.map_map]
    rfl

/-- Claim C1: for every requested name list and declared input-name list,
`output_names` is `all_names` with input names filtered out; each entry's
references are the classification of its resolved names; a name present
in `input_names` is classified as an input reference at its position in
`input_names`; every other name as an output reference at its position in
the filtered `output_names` list (not its position in `all_names`); the
output indices densely cover `0..k-1` for `k` output-resident names; and
output names preserve their relative order from `all_names`. -/
theorem tensor_classification (entries : List (List String)) (input_names : List String) :
    (find_output_tensors entries input_names).output_names =
      (runDispatcher entries).get_all_names.filter (fun x => x ∉ input_names) ∧
    (find_output_tensors entries input_names).inf_to_tensors =
      (runDispatcher entries).get_names_for_each_entry.map
        (fun l => l.map
          (classifyName input_names (find_output_tensors entries input_names).output_names)) ∧
    (∀ name, name ∈ input_names →
      classifyName input_names (find_output_tensors entries input_names).output_names name =
        ⟨input_names.indexOf name, false⟩) ∧
    (∀ name, name ∉ input_names →
      classifyName input_names (find_output_tensors entries input_names).output_names name =
        ⟨(find_output_tensors entries input_names).output_names.indexOf name, true⟩) ∧
    ((find_output_tensors entries input_names).output_names.map
        (fun name =>
          (classifyName input_names (find_output_tensors entries input_names).output_names
            name).index) =
      List.range (find_output_tensors entries input_names).output_names.length) ∧
    (find_output_tensors entries input_names).output_names.Sublist
      (runDispatcher entries).get_all_names := by
  refine ⟨rfl, rfl, ?_, ?_, ?_, ?_⟩
  · intro name hmem
    simp [classifyName, hmem]
  · intro name hmem
    simp [classifyName, hmem]
  · have hnd : (find_output_tensors entries input_names).output_names.Nodup :=
      List.Nodup.filter _ (nodup_runDispatcher_names entries)
    have hcl : ∀ name ∈ (find_output_tensors entries input_names).output_names,
        (classifyName input_names (find_output_tensors entries input_names).output_names
          name).index =
        (find_output_tensors entries input_names).output_names.indexOf name := by
      intro name hmem
      have hni : name ∉ input_names := by
        have := List.of_mem_filter hmem
        simpa using this
      simp [classifyName, hni]
    rw [List.map_congr_left hcl]
    exact nodup_map_indexOf _ hnd
  · exact List.filter_sublist _

/-- Witness for `tensor_classification`, instantiating the spec's
round-trip scenario: inferencer A requests `["loss", "acc"]`, B requests
`["acc", "pred"]`, and the input set is `{"pred:0"}`; the name `"pred:0"`
is classified as the input reference at index 0. -/
theorem tensor_classification_witness :
    classifyName ["pred:0"]
        (find_output_tensors [["loss", "acc"], ["acc", "pred"]] ["pred:0"]).output_names
        "pred:0" =
      ⟨["pred:0"].indexOf "pred:0", false⟩ :=
  (tensor_classification [["loss", "acc"], ["acc", "pred"]] ["pred:0"]).2.2.1 "pred:0"
    (by decide)

example : (find_output_tensors [["loss", "acc"], ["acc", "pred"]] ["pred:0"]).inf_to_tensors =
    [[⟨0, true⟩, ⟨1, true⟩], [⟨1, true⟩, ⟨0, false⟩]] := by decide

/-- Resolution of one `IOTensor` reference in the fed runner's loop body:
`(outputs if k.isOutput else dp)[k.index]` (out-of-range indexing is
totalized with a default of 0). -/
def resolveRef (outputs dp : List Int) (k : IOTensor) : Int :=
  (if k.isOutput then outputs else dp).getD k.index 0

/-- Observable calls the fed runner's `_trigger` makes on its
inferencers: `before_inference`, `datapoint` with the routed value
vector, and (via `summary_inferencer`) `after_inference`. -/
inductive InfEvent where
  | beforeInference (inf : Nat)
  | datapoint (inf : Nat) (args : List Int)
  | afterInference (inf : Nat)
  deriving Repr, DecidableEq

/-- The body of `InferenceRunner._trigger` once the datapoint sequence of
the (already reset) dataflow is fixed: `before_inference` on every
inferencer; then per datapoint, one predictor evaluation whose outputs
are routed to each inferencer through its `IOTensor` list; finally
`after_inference` on every inferencer. -/
def triggerEvents (data : List (List Int)) (predictor : List Int → List Int)
    (inf_to_tensors : List (List IOTensor)) : List InfEvent :=
  ((List.range inf_to_tensors.length).map InfEvent.beforeInference)
    ++ ((data.map (fun dp =>
          inf_to_tensors.enum.map (fun p =>
            InfEvent.datapoint p.1 (p.2.map (resolveRef (predictor dp) dp))))).flatten)
    ++ ((List.range inf_to_tensors.length).map InfEvent.afterInference)

/-- A `DataFlow` as the fed runner consumes it: `reset_state()` restarts
it, after which `get_data()` yields `seq` (the claims' determinism
assumption: the dataset yields the same datapoint sequence after each
reset); `remaining` is the not-yet-consumed part of the current pass. -/
structure DataFlowS where
  seq : List (List Int)
  remaining : List (List Int)
  deriving Repr, DecidableEq

def DataFlowS.reset_state (d : DataFlowS) : DataFlowS := ⟨d.seq, d.seq⟩

/-- Embeds `InferenceRunner._trigger`: reset the dataflow, run one full pass
over it (consuming it), and return the final dataflow state together
with the trace of inferencer calls. -/
def InferenceRunner._trigger (df : DataFlowS) (predictor : List Int → List Int)
    (inf_to_tensors : List (List IOTensor)) : DataFlowS × List InfEvent :=
  let df1 := df.reset_state
  (⟨df1.seq, []⟩, triggerEvents df1.remaining predictor inf_to_tensors)

/-- The sequence of argument vectors passed to inferencer `i`'s
`datapoint` hook within a trace. -/
def datapointArgs (i : Nat) (evs : List InfEvent) : List (List Int) :=
  evs.filterMap (fun e =>
    match e with
    | InfEvent.datapoint j args => if j = i then some args else none
    | _ => none)

/-- Claim C4: for a 3-datapoint dataset and a single inferencer
requesting one output tensor (reference `{index 0, isOutput true}`, the
predictor returning a single-element vector per datapoint), one trigger
of the fed runner calls the inferencer's `datapoint` hook exactly 3
times, each time with the single-element vector that is the predictor's
output for the corresponding datapoint, in dataset order, and calls
`after_inference` exactly once, after the third `datapoint` call. -/
theorem fed_trigger_three_datapoints (d0 d1 d2 : List Int) (rem : List (List Int))
    (predictor : List Int → List Int) (hp : ∀ dp, (predictor dp).length = 1) :
    (InferenceRunner._trigger ⟨[d0, d1, d2], rem⟩ predictor [[⟨0, true⟩]]).2 =
      [InfEvent.beforeInference 0,
       InfEvent.datapoint 0 (predictor d0),
       InfEvent.datapoint 0 (predictor d1),
       InfEvent.datapoint 0 (predictor d2),
       InfEvent.afterInference 0] := by
  obtain ⟨a0, h0⟩ := List.length_eq_one.mp (hp d0)
  obtain ⟨a1, h1⟩ := List.length_eq_one.mp (hp d1)
  obtain ⟨a2, h2⟩ := List.length_eq_one.mp (hp d2)
  simp [InferenceRunner._trigger, DataFlowS.reset_state, triggerEvents, resolveRef,
    h0, h1, h2, List.enum, show List.range 1 = [0] from rfl]

/-- Witness for `fed_trigger_three_datapoints` with datapoints `[1]`,
`[2]`, `[3]` and the constant predictor returning `[7]`. -/
theorem fed_trigger_three_datapoints_witness :
    (InferenceRunner._trigger ⟨[[1], [2], [3]], []⟩ (fun _ => [7]) [[⟨0, true⟩]]).2 =
      [InfEvent.beforeInference 0,
       InfEvent.datapoint 0 ((fun (_ : List Int) => [7]) [1]),
       InfEvent.datapoint 0 ((fun (_ : List Int) => [7]) [2]),
       InfEvent.datapoint 0 ((fun (_ : List Int) => [7]) [3]),
       InfEvent.afterInference 0] :=
  fed_trigger_three_datapoints [1] [2] [3] [] (fun _ => [7]) (fun _ => rfl)

/-- Claim C6: triggering the fed runner twice in succession, with a
deterministic predictor and a dataset that yields the same datapoint
sequence after each reset (`reset_state` restores `seq`), produces
identical sequences of `datapoint` hook arguments for every inferencer
in both passes. -/
theorem fed_trigger_idempotent (df : DataFlowS) (predictor : List Int → List Int)
    (inf_to_tensors : List (List IOTensor)) (i : Nat) :
    datapointArgs i
        (InferenceRunner._trigger (InferenceRunner._trigger df predictor inf_to_tensors).1
          predictor inf_to_tensors).2 =
      datapointArgs i (InferenceRunner._trigger df predictor inf_to_tensors).2 := rfl

/-- A value in the mapping returned by an inferencer's
`after_inference()`, modelled by what `float(v)` does on it: `scalar x`
when the conversion succeeds with value `x`, `nonscalar` when it
raises. -/
inductive StatVal where
  | scalar (x : ℚ)
  | nonscalar (tag : String)
  deriving Repr, DecidableEq

/-- Observable effects of `summary_inferencer`: a forwarded scalar
(`trainer.add_scalar_summary(k, v)`) or a warning that inferencer `inf`
returned a non-scalar statistic (after which that entry is skipped). -/
inductive SummaryEvent where
  | scalarSummary (key : String) (value : ℚ)
  | warnNonScalar (inf : Nat)
  deriving Repr, DecidableEq

/-- Embeds `summary_inferencer`: for each inferencer in order, walk the mapping
returned by its `after_inference()` in iteration order; a convertible
value is forwarded as a scalar summary, a non-convertible one produces a
warning and is skipped.  The function is total: no exception
propagates. -/
def summary_inferencer (results : List (List (String × StatVal))) : List SummaryEvent :=
  (results.enum.map (fun p =>
    p.2.map (fun kv =>
      match kv.2 with
      | StatVal.scalar x => SummaryEvent.scalarSummary kv.1 x
      | StatVal.nonscalar _ => SummaryEvent.warnNonScalar p.1))).flatten

/-- Claim C7: for an inferencer whose `after_inference` returns
`{"m1": 0.5, "m2": "not-a-number"}`, exactly one scalar (`m1` with value
0.5) is forwarded to the summary sink, the non-convertible entry
produces one warning and is skipped, no exception propagates (the trace
is fully defined), and the entries of any further inferencer returning
convertible values are still emitted. -/
theorem summary_inferencer_best_effort (other : List (String × ℚ)) :
    summary_inferencer
        [[("m1", StatVal.scalar (1 / 2)), ("m2", StatVal.nonscalar "not-a-number")],
         other.map (fun p => (p.1, StatVal.scalar p.2))] =
      [SummaryEvent.scalarSummary "m1" (1 / 2), SummaryEvent.warnNonScalar 0]
        ++ other.map (fun p => SummaryEvent.scalarSummary p.1 p.2) := by
  simp [summary_inferencer, List.enum, List.enumFrom, List.map_map]

/-- A Python runtime value as far as the two constructors inspect their
arguments: a `DataFlow`, a `TensorInput` (with the result of `size()`:
`some n`, or `none` when `size()` raises `NotImplementedError` — the
pipeline's `size()` itself is an external collaborator, modelled from
the spec's interface description), an `Inferencer`, a Python list, or
any other object. -/
inductive PyVal where
  | dataflow (data : List (List Int))
  | tensorInput (sz : Option Nat)
  | inferencer (id : Nat)
  | pylist (xs : List PyVal)
  | pystr (s : String)

/-- Embeds `isinstance(v, DataFlow)`. -/
def isDataFlow : PyVal → Bool
  | PyVal.dataflow _ => true
  | _ => false

/-- Embeds `isinstance(v, TensorInput)`. -/
def isTensorInput : PyVal → Bool
  | PyVal.tensorInput _ => true
  | _ => false

/-- Embeds `isinstance(v, Inferencer)`. -/
def isInferencer : PyVal → Bool
  | PyVal.inferencer _ => true
  | _ => false

/-- Embeds `isinstance(v, list)`. -/
def isPyList : PyVal → Bool
  | PyVal.pylist _ => true
  | _ => false

/-- The state `InferenceRunner.__init__` leaves behind. -/
structure InferenceRunnerState where
  ds : PyVal
  infs : List PyVal
  input_names : Option (List String)

/-- Embeds `InferenceRunner.__init__`: assert the dataset is a `DataFlow`, wrap
a non-list `infs` into a one-element list, assert every element is an
`Inferencer`, and store the input names.  The constructor performs no
graph or predictor interaction (that happens later, in
`_setup_graph`). -/
def InferenceRunner.init (ds infs : PyVal) (input_tensor_names : Option (List String)) :
    Except String InferenceRunnerState :=
  if ¬ isDataFlow ds then Except.error "AssertionError: ds is not a DataFlow"
  else
    let infsList := match infs with
      | PyVal.pylist xs => xs
      | x => [x]
    if infsList.all isInferencer then
      Except.ok ⟨ds, infsList, input_tensor_names⟩
    else Except.error "AssertionError: an element of infs is not an Inferencer"

/-- The state `FeedfreeInferenceRunner.__init__` leaves behind. -/
structure FeedfreeInferenceRunnerState where
  input_data : PyVal
  infs : List PyVal
  input_names : Option PyVal
  size : Nat
  towerBuildPfx : String

/-- Embeds `FeedfreeInferenceRunner.__init__`: assert the input is a
`TensorInput`, wrap a non-list `infs` into a one-element list, assert
every element is an `Inferencer`, assert an explicitly given
`input_names` is a list, then call `input.size()` — turning its
`NotImplementedError` into a `ValueError` — and capture the result in
`self._size`.  No graph interaction happens here (that is
`_setup_graph`). -/
def FeedfreeInferenceRunner.init (input infs : PyVal) (input_names : Option PyVal)
    (pfx : String) : Except String FeedfreeInferenceRunnerState :=
  if ¬ isTensorInput input then Except.error "AssertionError: input is not a TensorInput"
  else
    let infsList := match infs with
      | PyVal.pylist xs => xs
      | x => [x]
    if ¬ infsList.all isInferencer then
      Except.error "AssertionError: an element of infs is not an Inferencer"
    else if (match input_names with
             | some v => !(isPyList v)
             | none => false) then
      Except.error "AssertionError: input_names is not a list"
    else
      match input with
      | PyVal.tensorInput (some n) => Except.ok ⟨input, infsList, input_names, n, pfx⟩
      | _ => Except.error "ValueError: Input used in FeedfreeInferencecRunner must have a size!"

/-- Embeds `FeedfreeInferenceRunner._find_output_tensors`: collect all requested
names with a dispatcher, then resolve every name — whatever it is — by a
graph lookup of `tower_pfx + '/' + name` (`G.get_tensor_by_name`,
modelled as the partial map `lookup`; a failed lookup is the graph's
`KeyError`).  The function receives no input-name information and
contains no rejection branch for input-resident names (the source only
carries the comment "TODO doesn't support output an input tensor"). -/
def FeedfreeInferenceRunner.findOutputTensors (entries : List (List String))
    (tower_pfx : String) (lookup : String → Option Nat) :
    Except String (List Nat × List (List Nat)) :=
  let d := runDispatcher entries
  match d.get_all_names.mapM (fun n => lookup (tower_pfx ++ "/" ++ n)) with
  | some ts => Except.ok (ts, d.get_idx_for_each_entry)
  | none => Except.error "KeyError: tensor name not found in graph"

/-- Observable events of `FeedfreeInferenceRunner._trigger`: one
`sessRun` per iteration of the fixed-size loop (`sess.run(fetches=...)`),
plus the inferencer hook calls. -/
inductive FFEvent where
  | beforeInference (inf : Nat)
  | sessRun (step : Nat)
  | datapoint (inf : Nat) (args : List Int)
  | afterInference (inf : Nat)
  deriving Repr, DecidableEq

def isSessRun : FFEvent → Bool
  | FFEvent.sessRun _ => true
  | _ => false

/-- Embeds `FeedfreeInferenceRunner._trigger`: `before_inference` on every
inferencer, then exactly `size` iterations, each evaluating the output
tensor set once (`sessRun`) and routing the results to every inferencer
by its index list, then `after_inference` on every inferencer. -/
def FeedfreeInferenceRunner.triggerEvents (size : Nat) (stepOutputs : Nat → List Int)
    (inf_to_idxs : List (List Nat)) : List FFEvent :=
  ((List.range inf_to_idxs.length).map FFEvent.beforeInference)
    ++ ((List.range size).map (fun s =>
          FFEvent.sessRun s ::
            inf_to_idxs.enum.map (fun p =>
              FFEvent.datapoint p.1 (p.2.map (fun k => (stepOutputs s).getD k 0))))).flatten
    ++ ((List.range inf_to_idxs.length).map FFEvent.afterInference)

lemma countP_sessRun_blocks (stepOutputs : Nat → List Int)
    (inf_to_idxs : List (List Nat)) : ∀ size : Nat,
    (((List.range size).map (fun s =>
        FFEvent.sessRun s ::
          inf_to_idxs.enum.map (fun p =>
            FFEvent.datapoint p.1 (p.2.map (fun k => (stepOutputs s).getD k 0))))).flatten).countP
      isSessRun = size := by
  intro size
  induction size with
  | zero => rfl
  | succ n ihn =>
    rw [List.range_succ, List.map_append, List.flatten_append, List.countP_append, ihn]
    have hz : (inf_to_idxs.enum.map (fun p =>
        FFEvent.datapoint p.1 (p.2.map (fun k => (stepOutputs n).getD k 0)))).countP
        isSessRun = 0 := by
      rw [List.countP_eq_zero]
      intro a ha
      obtain ⟨p, -, rfl⟩ := List.mem_map.mp ha
      simp [isSessRun]
    simp [List.countP_cons, hz, isSessRun]

lemma countP_map_not_sessRun (f : Nat → FFEvent) (hf : ∀ i, isSessRun (f i) = false)
    (l : List Nat) : (l.map f).countP isSessRun = 0 := by
  rw [List.countP_eq_zero]
  intro a ha
  obtain ⟨i, -, rfl⟩ := List.mem_map.mp ha
  simp [hf i]

/-- The feedfree trigger performs exactly `size` evaluation steps. -/
lemma feedfree_trigger_steps (size : Nat) (stepOutputs : Nat → List Int)
    (inf_to_idxs : List (List Nat)) :
    (FeedfreeInferenceRunner.triggerEvents size stepOutputs inf_to_idxs).countP
      isSessRun = size := by
  unfold FeedfreeInferenceRunner.triggerEvents
  rw [List.countP_append, List.countP_append,
    countP_map_not_sessRun FFEvent.beforeInference (fun _ => rfl),
    countP_map_not_sessRun FFEvent.afterInference (fun _ => rfl),
    countP_sessRun_blocks]
  omega

/-- Claim C5, evidence: the feedfree runner does not explicitly reject a
requested name that is input-resident.  Here `"input0:0"` is the
(canonical) name of an input placeholder, yet
`FeedfreeInferenceRunner.findOutputTensors` — which never receives the
input-name set at all — blindly prefixes it with the tower name and
succeeds whenever the graph lookup happens to resolve; when the lookup
fails the only error is the graph's own `KeyError`, not an
"unsupported" rejection. -/
theorem feedfree_input_name_not_rejected :
    FeedfreeInferenceRunner.findOutputTensors [["input0:0"]] "towerp"
        (fun s => if s = "towerp/input0:0" then some 0 else none) =
      Except.ok ([0], [[0]]) ∧
    FeedfreeInferenceRunner.findOutputTensors [["input0:0"]] "towerp"
        (fun _ => none) =
      Except.error "KeyError: tensor name not found in graph" :=
  ⟨rfl, rfl⟩

/-- Claim C8: constructing a `FeedfreeInferenceRunner` with an input
pipeline whose `size()` raises `NotImplementedError` fails immediately
in the constructor with a `ValueError` (before any graph interaction —
the constructor performs none); if `size()` succeeds with `n`, the value
is captured in `self._size` and one trigger runs exactly `n` evaluation
steps. -/
theorem feedfree_size_required :
    FeedfreeInferenceRunner.init (PyVal.tensorInput none)
        (PyVal.pylist [PyVal.inferencer 0]) none "" =
      Except.error "ValueError: Input used in FeedfreeInferencecRunner must have a size!" ∧
    ∀ (n : Nat) (stepOutputs : Nat → List Int) (inf_to_idxs : List (List Nat)),
      ∃ st : FeedfreeInferenceRunnerState,
        FeedfreeInferenceRunner.init (PyVal.tensorInput (some n))
            (PyVal.pylist [PyVal.inferencer 0]) none "" = Except.ok st ∧
        st.size = n ∧
        (FeedfreeInferenceRunner.triggerEvents st.size stepOutputs inf_to_idxs).countP
          isSessRun = n := by
  refine ⟨rfl, ?_⟩
  intro n stepOutputs inf_to_idxs
  refine ⟨⟨PyVal.tensorInput (some n), [PyVal.inferencer 0], none, n, ""⟩, rfl, rfl, ?_⟩
  exact feedfree_trigger_steps n stepOutputs inf_to_idxs

/-- Claim C9: constructing the fed runner with a dataset that is not a
`DataFlow`, or with an `infs` list containing an element that is not an
`Inferencer`, raises an `AssertionError` in the constructor; the
constructor performs no graph or predictor interaction (that happens
only in `_setup_graph`). -/
theorem fed_init_type_checks :
    (∀ (ds infs : PyVal) (names : Option (List String)), isDataFlow ds = false →
      InferenceRunner.init ds infs names =
        Except.error "AssertionError: ds is not a DataFlow") ∧
    (∀ (ds : PyVal) (xs : List PyVal) (x : PyVal) (names : Option (List String)),
      isDataFlow ds = true → x ∈ xs → isInferencer x = false →
      InferenceRunner.init ds (PyVal.pylist xs) names =
        Except.error "AssertionError: an element of infs is not an Inferencer") := by
  constructor
  · intro ds infs names h
    simp [InferenceRunner.init, h]
  · intro ds xs x names hds hx hnotinf
    have hall : xs.all isInferencer = false := by
      rcases hba : xs.all isInferencer with _ | _
      · rfl
      · exact absurd (List.all_eq_true.mp hba x hx) (by simp [hnotinf])
    simp [InferenceRunner.init, hds, hall]

/-- Witness for `fed_init_type_checks`: a string is not a `DataFlow`, and
a list containing a string is not a list of `Inferencer`s. -/
theorem fed_init_type_checks_witness :
    InferenceRunner.init (PyVal.pystr "d") (PyVal.pylist []) none =
      Except.error "AssertionError: ds is not a DataFlow" ∧
    InferenceRunner.init (PyVal.dataflow []) (PyVal.pylist [PyVal.pystr "bad"]) none =
      Except.error "AssertionError: an element of infs is not an Inferencer" :=
  ⟨fed_init_type_checks.1 (PyVal.pystr "d") (PyVal.pylist []) none rfl,
   fed_init_type_checks.2 (PyVal.dataflow []) [PyVal.pystr "bad"] (PyVal.pystr "bad") none
     rfl (List.mem_singleton.mpr rfl) rfl⟩

/-- Claim C10: both runner constructors accept a single bare `Inferencer`
for the `infs` argument and normalize it into a one-element list,
behaving exactly as if the singleton list had been passed (the resulting
constructor outcome is identical, so in particular the element type
check applies to the wrapped value as the sole list element). -/
theorem bare_inferencer_normalized :
    (∀ (ds : PyVal) (i : Nat) (names : Option (List String)),
      InferenceRunner.init ds (PyVal.inferencer i) names =
        InferenceRunner.init ds (PyVal.pylist [PyVal.inferencer i]) names) ∧
    (∀ (input : PyVal) (i : Nat) (names : Option PyVal) (pfx : String),
      FeedfreeInferenceRunner.init input (PyVal.inferencer i) names pfx =
        FeedfreeInferenceRunner.init input (PyVal.pylist [PyVal.inferencer i]) names pfx) :=
  ⟨fun _ _ _ => rfl, fun _ _ _ _ => rfl⟩

example : canonName "x" = "x:0" := by decide
example : canonName "x:0" = "x:0" := by decide
example : (runDispatcher [["a", "b"], ["b", "c", "a"]]).names = ["a:0", "b:0", "c:0"] := by decide
example : (runDispatcher [["a", "b"], ["b", "c", "a"]]).idxs = [[0, 1], [1, 2, 0]] := by decide
example : specFirstSeen ["a", "b", "a", "c", "b"] = ["a", "b", "c"] := by decide
